import Mathlib

/-!
Verification development for the adblocker DNS-filtering engine
(packages engine, parser, config of the Go repository).

Strings are modelled as lists of characters (Go indexes strings by
bytes; all rule syntax here is ASCII, so character lists are faithful).
Go library functions used by the code (strings.Split, strings.Fields,
strings.TrimSpace, netip.ParseAddr, netip.ParsePrefix, regexp.QuoteMeta,
dns.TypeToString) are given explicit executable models below, next to
the repository functions that call them.
-/

set_option maxHeartbeats 1000000

namespace Adblocker

/-- Character-list representation of Go strings. -/
abbrev Str := List Char

/-- Model of strings.Split with a one-character separator: splits on every
occurrence of the separator, yielding count+1 parts ([[]] on the empty
string, like Go). -/
def splitCh (sep : Char) : Str → List Str
  | [] => [[]]
  | c :: rest =>
    let r := splitCh sep rest
    if c = sep then [] :: r
    else
      match r with
      | [] => [[c]]
      | h :: t => (c :: h) :: t

/-- Inverse of splitCh: joins parts with the separator (strings.Join). -/
def joinCh (sep : Char) : List Str → Str
  | [] => []
  | [x] => x
  | x :: xs => x ++ sep :: joinCh sep xs

/-- Model of strings.Split on a whitespace predicate, used for
strings.Fields below. -/
def splitPred (p : Char → Bool) : Str → List Str
  | [] => [[]]
  | c :: rest =>
    let r := splitPred p rest
    if p c then [] :: r
    else
      match r with
      | [] => [[c]]
      | h :: t => (c :: h) :: t

/-- Model of strings.Fields: whitespace-separated fields, empties dropped. -/
def fieldsOf (s : Str) : List Str :=
  (splitPred (fun c => c.isWhitespace) s).filter (fun w => w ≠ [])

/-- Model of strings.TrimSpace. -/
def trimSpace (s : Str) : Str :=
  ((s.dropWhile (fun c => c.isWhitespace)).reverse.dropWhile
    (fun c => c.isWhitespace)).reverse

/-- Model of strings.TrimSuffix(s, ".") — drops one trailing dot. -/
def trimDot (s : Str) : Str :=
  if s.getLast? = some '.' then s.dropLast else s

/-- Model of strings.TrimSuffix(s, "^") — drops one trailing caret. -/
def trimCaret (s : Str) : Str :=
  if s.getLast? = some '^' then s.dropLast else s

/-- Model of strings.TrimPrefix(s, "~") — drops one leading tilde. -/
def stripTilde (s : Str) : Str :=
  match s with
  | '~' :: rest => rest
  | _ => s

/-- Model of strings.LastIndex for a one-character needle: when the
character occurs, returns the text before and after its last occurrence. -/
def lastSplit (c : Char) : Str → Option (Str × Str)
  | [] => none
  | x :: xs =>
    match lastSplit c xs with
    | some (l, r) => some (x :: l, r)
    | none => if x = c then some ([], xs) else none

/-- Model of strings.SplitN(s, sep, 2) for a one-character separator:
text before the first occurrence, and optionally the text after it. -/
def splitN2 (sep : Char) : Str → Str × Option Str
  | [] => ([], none)
  | x :: xs =>
    if x = sep then ([], some xs)
    else
      let r := splitN2 sep xs
      (x :: r.1, r.2)

/-- Model of strings.EqualFold restricted to ASCII case folding, which is
all the DNS type names need. -/
def eqFold (a b : Str) : Bool :=
  a.map Char.toLower = b.map Char.toLower

/-! ### IP address model

Model of the net/netip library as used by the repository, restricted to
IPv4 dotted-quad addresses (the only address family the claims exercise).
-/

/-- An IPv4 address as four octets (model of netip.Addr). -/
structure Addr where
  o1 : Nat
  o2 : Nat
  o3 : Nat
  o4 : Nat
deriving DecidableEq

/-- Parses one decimal octet as netip does: nonempty, at most three
digits, digits only, no leading zero, value at most 255. -/
def parseOctet (s : Str) : Option Nat :=
  if s = [] then none
  else if ¬ s.all (fun c => c.isDigit) then none
  else if s.length > 1 ∧ s.head? = some '0' then none
  else if s.length > 3 then none
  else
    let n := s.foldl (fun a c => a * 10 + (c.toNat - 48)) 0
    if n ≤ 255 then some n else none

/-- Model of netip.ParseAddr restricted to IPv4 dotted-quad form. -/
def parseAddr (s : Str) : Option Addr :=
  match splitCh '.' s with
  | [a, b, c, d] =>
    match parseOctet a, parseOctet b, parseOctet c, parseOctet d with
    | some x, some y, some z, some w => some ⟨x, y, z, w⟩
    | _, _, _, _ => none
  | _ => none

/-- The 32-bit value of an address. -/
def Addr.toNat (a : Addr) : Nat :=
  a.o1 * 16777216 + a.o2 * 65536 + a.o3 * 256 + a.o4

/-- Decimal text of one octet. -/
def octetToStr (n : Nat) : Str :=
  if n ≥ 100 then
    [Char.ofNat (48 + n / 100), Char.ofNat (48 + n / 10 % 10),
     Char.ofNat (48 + n % 10)]
  else if n ≥ 10 then [Char.ofNat (48 + n / 10), Char.ofNat (48 + n % 10)]
  else [Char.ofNat (48 + n)]

/-- Model of netip.Addr.String for IPv4. -/
def addrToStr (a : Addr) : Str :=
  octetToStr a.o1 ++ '.' :: octetToStr a.o2 ++ '.' :: octetToStr a.o3
    ++ '.' :: octetToStr a.o4

/-- Model of netip.Addr.IsLoopback for IPv4: the 127.0.0.0/8 block. -/
def isLoopback (a : Addr) : Bool :=
  a.o1 = 127

/-- Model of netip.Addr.IsUnspecified for IPv4: 0.0.0.0. -/
def isUnspecified (a : Addr) : Bool :=
  a.o1 = 0 ∧ a.o2 = 0 ∧ a.o3 = 0 ∧ a.o4 = 0

/-- A CIDR prefix: base address and prefix length (model of netip.Prefix). -/
structure Prefix where
  addr : Addr
  bits : Nat
deriving DecidableEq

/-- Parses the prefix length: digits only, no leading zero, at most 32. -/
def parseBits (s : Str) : Option Nat :=
  if s = [] then none
  else if ¬ s.all (fun c => c.isDigit) then none
  else if s.length > 1 ∧ s.head? = some '0' then none
  else
    let n := s.foldl (fun a c => a * 10 + (c.toNat - 48)) 0
    if n ≤ 32 then some n else none

/-- Model of netip.ParsePrefix for IPv4: address, slash, prefix length,
splitting at the last slash. -/
def parsePrefix (s : Str) : Option Prefix :=
  match lastSplit '/' s with
  | none => none
  | some (l, r) =>
    match parseAddr l, parseBits r with
    | some a, some n => some ⟨a, n⟩
    | _, _ => none

/-- Model of netip.Prefix.Contains: the high bits of the address agree
with the high bits of the prefix base. -/
def pfxContains (p : Prefix) (a : Addr) : Bool :=
  a.toNat / 2 ^ (32 - p.bits) = p.addr.toNat / 2 ^ (32 - p.bits)

/-! ### Rule model and parser (package parser) -/

/-- RuleType distinguishes the matching strategy (parser/rule.go). -/
inductive RuleType where
  | unknown
  | exact
  | distinguish
  | regex
  | generic
deriving DecidableEq

/-- Parsed rule modifiers (parser/rule.go Modifiers). -/
structure Modifiers where
  client : List Str := []
  denyAllow : List Str := []
  dnsType : List Str := []
  dnsRewrite : Str := []
  important : Bool := false
  badFilter : Bool := false
deriving DecidableEq

/-- A parsed filtering rule (parser/rule.go Rule). The Go field IP is a
netip.Addr whose zero value is invalid; it is modelled as an Option. -/
structure Rule where
  text : Str
  pattern : Str
  type : RuleType
  isWhitelist : Bool
  modifiers : Modifiers
  ip : Option Addr := none
  groupID : Nat := 0
deriving DecidableEq

/-- One step of the parseModifiers loop: a comma token key=value is
dispatched on the key (parser ParseRule helper parseModifiers). -/
def modifierStep (m : Modifiers) (p : Str) : Modifiers :=
  let kv := splitN2 '=' p
  let key := trimSpace kv.1
  let val := kv.2.getD []
  if key = ("client").toList then { m with client := m.client ++ [val] }
  else if key = ("denyallow").toList then
    { m with denyAllow := m.denyAllow ++ [val] }
  else if key = ("dnstype").toList then
    { m with dnsType := m.dnsType ++ [val] }
  else if key = ("dnsrewrite").toList then { m with dnsRewrite := val }
  else if key = ("important").toList then { m with important := true }
  else if key = ("badfilter").toList then { m with badFilter := true }
  else m

/-- Model of parseModifiers: folds the comma-separated tokens into the
modifier record. The Go function has an error result but returns nil on
every path, which the Except result mirrors. -/
def parseModifiersE (raw : Str) : Except String Modifiers :=
  Except.ok ((splitCh ',' raw).foldl modifierStep {})

/-- The whitelist peel: a leading at-at marks a whitelist rule
(ParseRule step 1). -/
def peelWhitelist (t : Str) : Bool × Str :=
  if (("@@").toList).isPrefixOf t then (true, t.drop 2) else (false, t)

/-- The modifier split: everything after the last dollar sign is the
modifier segment (ParseRule step 2). -/
def splitDollar (t : Str) : Except String (Str × Modifiers) :=
  match lastSplit '$' t with
  | none => Except.ok (t, {})
  | some (body, seg) =>
    match parseModifiersE seg with
    | Except.ok m => Except.ok (body, m)
    | Except.error e => Except.error e

/-- Model of regexp.QuoteMeta: every regex metacharacter is escaped with
a backslash. -/
def quoteMeta (s : Str) : Str :=
  s.flatMap (fun c =>
    if c ∈ ['\\', '.', '+', '*', '?', '(', ')', '|', '[', ']',
        Char.ofNat 123, Char.ofNat 125, '^', '$']
    then ['\\', c] else [c])

/-- Model of strings.ReplaceAll(s, backslash-star, dot-star). -/
def replaceStarEsc : Str → Str
  | [] => []
  | '\\' :: '*' :: rest => '.' :: '*' :: replaceStarEsc rest
  | c :: rest => c :: replaceStarEsc rest

/-- Steps 3 and 4 of ParseRule: classify the residual body, apply the
hosts-file branch, strip a trailing caret, and convert wildcard patterns
to anchored regexes. -/
def classify (body : Str) (mods : Modifiers) (isWl : Bool) (origText : Str) :
    Rule :=
  let base : Rule :=
    { text := origText, pattern := body, type := RuleType.unknown,
      isWhitelist := isWl, modifiers := mods, ip := none, groupID := 0 }
  let r1 :=
    if body.head? = some '/' ∧ body.getLast? = some '/' then
      { base with type := RuleType.regex, pattern := (body.drop 1).dropLast }
    else if (("||").toList).isPrefixOf body ∧ body.getLast? = some '^' then
      { base with
        type := RuleType.distinguish
        pattern := (body.drop 2).dropLast }
    else if (("||").toList).isPrefixOf body then
      { base with type := RuleType.distinguish, pattern := body.drop 2 }
    else
      match fieldsOf body with
      | p0 :: p1 :: _ =>
        match parseAddr p0 with
        | some ip =>
          { base with
            type := RuleType.exact
            pattern := p1
            ip := some ip
            modifiers :=
              if ¬ isLoopback ip ∧ ¬ isUnspecified ip then
                { mods with dnsRewrite := addrToStr ip }
              else mods }
        | none => { base with type := RuleType.exact }
      | _ => { base with type := RuleType.exact }
  let r2 := { r1 with pattern := trimCaret r1.pattern }
  if r2.type ≠ RuleType.regex ∧ '*' ∈ r2.pattern then
    if r1.type = RuleType.distinguish then
      { r2 with
        type := RuleType.regex
        pattern := ("(^|\\.)").toList ++ replaceStarEsc (quoteMeta r2.pattern)
          ++ [Char.ofNat 36] }
    else
      { r2 with
        type := RuleType.regex
        pattern := '^' :: replaceStarEsc (quoteMeta r2.pattern)
          ++ [Char.ofNat 36] }
  else r2

/-- Model of parser.ParseRule: one line of filter text yields no rule
(comments, blanks), a rule, or an error from the modifier segment. -/
def ParseRule (line : Str) : Except String (Option Rule) :=
  let text := trimSpace line
  if text = [] ∨ text.head? = some '!' ∨ text.head? = some '#' then
    Except.ok none
  else
    let pw := peelWhitelist text
    match splitDollar pw.2 with
    | Except.error e => Except.error (("failed to parse modifiers: ") ++ e)
    | Except.ok (body, mods) => Except.ok (some (classify body mods pw.1 text))

/-! ### Domain trie (engine/trie.go)

Go's map children are modelled as an association list used only through
lookup and in-place update, which matches map semantics. The trie's
mutex is irrelevant to the sequential semantics modelled here.
-/

/-- A node of the reverse-label domain trie. -/
inductive TrieNode where
  | node (children : List (Str × TrieNode)) (rules : List Rule)

/-- The empty trie node (NewDomainTrie). -/
def emptyNode : TrieNode := TrieNode.node [] []

/-- The rules stored at a node. -/
def TrieNode.nrules : TrieNode → List Rule
  | TrieNode.node _ rs => rs

/-- Map lookup on the children. -/
def lookupChild : List (Str × TrieNode) → Str → Option TrieNode
  | [], _ => none
  | (k, v) :: rest, key => if k = key then some v else lookupChild rest key

/-- Map update on the children: replaces the entry for the key, or
appends a fresh one. -/
def updateChild : List (Str × TrieNode) → Str → TrieNode → List (Str × TrieNode)
  | [], key, v => [(key, v)]
  | (k, w) :: rest, key, v =>
    if k = key then (k, v) :: rest else (k, w) :: updateChild rest key v

/-- The descending loop of Insert, walking the reversed label list and
appending the rule at the terminal node. -/
def insertRev : List Str → Rule → TrieNode → TrieNode
  | [], r, TrieNode.node cs rs => TrieNode.node cs (rs ++ [r])
  | p :: ps, r, TrieNode.node cs rs =>
    let child := (lookupChild cs p).getD emptyNode
    TrieNode.node (updateChild cs p (insertRev ps r child)) rs

/-- Model of DomainTrie.Insert: split the pattern on dots and walk the
labels in reverse order. -/
def trieInsert (rule : Rule) (root : TrieNode) : TrieNode :=
  insertRev (splitCh '.' rule.pattern).reverse rule root

/-- The descending loop of SearchTrace: walk the reversed labels,
collecting each visited node's rules, stopping at a missing edge. -/
def searchRev : List Str → TrieNode → List Rule
  | [], _ => []
  | p :: ps, TrieNode.node cs _ =>
    match lookupChild cs p with
    | none => []
    | some child => child.nrules ++ searchRev ps child

/-- Model of DomainTrie.SearchTrace: trim one trailing dot, split on
dots, walk right-to-left accumulating rules along the path. -/
def SearchTrace (root : TrieNode) (domain : Str) : List Rule :=
  searchRev (splitCh '.' (trimDot domain)).reverse root

/-! ### Schedule matcher (engine/schedule.go) -/

/-- A minute range within one day; Go fields Start and End (End renamed,
it is a Lean keyword). Both bounds are inclusive. -/
structure TimeRange where
  start : Nat
  stop : Nat
deriving DecidableEq

/-- A named schedule: weekday (0 = Sunday .. 6 = Saturday) to minute
ranges. The Go map returns the empty list for absent days, modelled by a
total function. -/
structure Schedule where
  weekMap : Nat → List TimeRange

/-- The schedule matcher; the Go name-to-schedule map is modelled as a
lookup function. -/
structure ScheduleMatcher where
  schedules : String → Option Schedule

/-- A local-time instant, exposing exactly what IsActive reads from
time.Time: weekday, hour, minute. -/
structure Instant where
  weekday : Nat
  hour : Nat
  minute : Nat

/-- Model of ScheduleMatcher.IsActive: empty or unknown names are never
active; otherwise the current minute must fall inside one of the current
weekday's ranges (inclusive on both ends). -/
def IsActive (sm : ScheduleMatcher) (scheduleName : String) (t : Instant) :
    Bool :=
  if scheduleName = "" then false
  else
    match sm.schedules scheduleName with
    | none => false
    | some sch =>
      if sch.weekMap t.weekday = [] then false
      else
        (sch.weekMap t.weekday).any (fun r =>
          r.start ≤ t.hour * 60 + t.minute ∧ t.hour * 60 + t.minute ≤ r.stop)

/-! ### Engine (engine/engine.go, engine/user.go, config) -/

/-- A configured user, as the engine reads it: match name (compared
against client-modifier tokens) and the user-group name. -/
structure User where
  name : Str
  userGroup : String
deriving DecidableEq

/-- A user-group policy: rule-group name plus optional schedule name. -/
structure Policy where
  ruleGroup : String
  schedule : String

/-- A named ordered list of policies (config.UserGroup). -/
structure UserGroup where
  name : String
  policies : List Policy

/-- The slice of the configuration the engine reads at query time. -/
structure Config where
  userGroups : List UserGroup

/-- A compiled regex rule; the compiled regexp is modelled by its match
function on the query name. -/
structure RegexRule where
  rmatch : Str → Bool
  rrule : Rule

/-- The engine state read by Resolve. The user matcher is modelled by
its Match function; groupIDs models the name-to-id map with default 0. -/
structure Engine where
  cfg : Config
  userMatch : Addr → Str → Option User
  scheduleMatcher : ScheduleMatcher
  trie : TrieNode
  regexRules : List RegexRule
  groupIDs : String → Nat
  defaultUserGroupName : String

/-- Model of dns.TypeToString for the record types this filter meets;
absent keys yield the empty string as a Go map does. -/
def typeToStr (qType : Nat) : Str :=
  if qType = 1 then ("A").toList
  else if qType = 2 then ("NS").toList
  else if qType = 5 then ("CNAME").toList
  else if qType = 6 then ("SOA").toList
  else if qType = 12 then ("PTR").toList
  else if qType = 15 then ("MX").toList
  else if qType = 16 then ("TXT").toList
  else if qType = 28 then ("AAAA").toList
  else if qType = 33 then ("SRV").toList
  else if qType = 65 then ("HTTPS").toList
  else []

/-- One client token test, after TrimSpace: strip a leading tilde, then
take the first applicable interpretation — user name, literal IP, CIDR
prefix, textual IP form (checkModifiers, client block). -/
def userNameHit (user : Option User) (target : Str) : Bool :=
  match user with
  | some u => target = u.name
  | none => false

def clientTokenMatch (p : Str) (user : Option User) (clientIP : Addr) : Bool :=
  let target := stripTilde p
  if userNameHit user target then true
  else
    match parseAddr target with
    | some ip => ip = clientIP
    | none =>
      match parsePrefix target with
      | some pfx => pfxContains pfx clientIP
      | none => target = addrToStr clientIP

/-- The dollar-client guard of checkModifiers: flatten values on pipes,
read the mode off the first token, match tokens, then require any match
(inclusion) or no match (exclusion). -/
def clientGuard (vals : List Str) (user : Option User) (clientIP : Addr) :
    Bool :=
  if vals = [] then true
  else
    match vals.flatMap (splitCh '|') with
    | [] => false
    | t0 :: ts =>
      let isExclusionMode := (trimSpace t0).head? = some '~'
      let matched :=
        (t0 :: ts).any (fun p => clientTokenMatch (trimSpace p) user clientIP)
      if isExclusionMode then ¬ matched else matched

/-- The dollar-dnstype guard of checkModifiers: same flattening and mode
convention, tokens compared case-insensitively to the type name. -/
def dnstypeGuard (vals : List Str) (qType : Nat) : Bool :=
  if vals = [] then true
  else
    let typeName := typeToStr qType
    match vals.flatMap (splitCh '|') with
    | [] => false
    | t0 :: ts =>
      let isExclusionMode := (trimSpace t0).head? = some '~'
      let matched :=
        (t0 :: ts).any (fun p => eqFold (stripTilde (trimSpace p)) typeName)
      if isExclusionMode then ¬ matched else matched

/-- The dollar-denyallow exclusion of checkModifiers: the rule is
suppressed when any pipe-separated token equals the trimmed query name. -/
def denyallowExcluded (vals : List Str) (qName : Str) : Bool :=
  if vals = [] then false
  else
    let domain := trimDot qName
    vals.any (fun raw => (splitCh '|' raw).any
      (fun da => trimSpace da = domain))

/-- Model of Engine.checkModifiers: badfilter rejects outright, then the
client, dnstype and denyallow guards run in order. -/
def checkModifiers (r : Rule) (user : Option User) (qType : Nat)
    (clientIP : Addr) (qName : Str) : Bool :=
  if r.modifiers.badFilter then false
  else if ¬ clientGuard r.modifiers.client user clientIP then false
  else if ¬ dnstypeGuard r.modifiers.dnsType qType then false
  else if denyallowExcluded r.modifiers.denyAllow qName then false
  else true

/-- The candidate filter of Resolve's per-group loop: group id must
match, Exact rules must equal the trimmed query name, and the modifier
checks must pass (the three continue branches of the loop). -/
def applicable (user : Option User) (qType : Nat) (clientIP : Addr)
    (qName : Str) (gid : Nat) (r : Rule) : Bool :=
  if r.groupID ≠ gid then false
  else if r.type = RuleType.exact ∧ r.pattern ≠ trimDot qName then false
  else checkModifiers r user qType clientIP qName

/-- The four priority slots of Resolve's per-group partition. -/
structure Slots where
  iw : Option Rule
  ib : Option Rule
  w : Option Rule
  b : Option Rule
deriving DecidableEq

/-- One step of the partition loop: an applicable rule overwrites the
slot of its class (Go assigns without a nil check, so a later applicable
rule replaces an earlier one in the same slot). -/
def slotUpdate (appl : Rule → Bool) (s : Slots) (r : Rule) : Slots :=
  if appl r then
    if r.isWhitelist then
      if r.modifiers.important then { s with iw := some r }
      else { s with w := some r }
    else
      if r.modifiers.important then { s with ib := some r }
      else { s with b := some r }
  else s

/-- The per-group partition of Resolve over the candidate list. -/
def computeSlots (appl : Rule → Bool) (ms : List Rule) : Slots :=
  ms.foldl (slotUpdate appl) ⟨none, none, none, none⟩

/-- The decision result of Resolve (engine ResolveResult). -/
structure ResolveResult where
  blocked : Bool
  reason : String
  rule : Option Rule
  user : Option User
  dnsRewrite : Str
deriving DecidableEq

/-- The group loop of Resolve: for each active group in order, partition
the candidates and decide by the slot priority; the important-block
branch carries no rewrite, only the plain block branch does. -/
def evalGroups (user : Option User) (qType : Nat) (clientIP : Addr)
    (qName : Str) (allMatches : List Rule) : List Nat → ResolveResult
  | [] => ⟨false, "Not found", none, user, []⟩
  | gid :: rest =>
    let s := computeSlots (applicable user qType clientIP qName gid) allMatches
    match s.iw with
    | some r => ⟨false, "Important Whitelisted", some r, user, []⟩
    | none =>
      match s.ib with
      | some r => ⟨true, "Important Blocked", some r, user, []⟩
      | none =>
        match s.w with
        | some r => ⟨false, "Whitelisted", some r, user, []⟩
        | none =>
          match s.b with
          | some r =>
            if r.modifiers.dnsRewrite ≠ [] then
              ⟨true, "Rewrite", some r, user, r.modifiers.dnsRewrite⟩
            else ⟨true, "Blocked", some r, user, []⟩
          | none => evalGroups user qType clientIP qName allMatches rest

/-- Model of Engine.getActiveGroupIDs: walk the user-group's policies in
order, keep those whose schedule is not currently active, map to group
ids, drop zero ids and duplicates. Go's seen map is the membership of
the accumulator. -/
def getActiveGroupIDs (e : Engine) (userGroupName : String) (now : Instant) :
    List Nat :=
  match e.cfg.userGroups.find? (fun ug => ug.name = userGroupName) with
  | none => []
  | some ug =>
    ug.policies.foldl (fun acc policy =>
      if IsActive e.scheduleMatcher policy.schedule now then acc
      else if e.groupIDs policy.ruleGroup ≠ 0 ∧
          ¬ acc.contains (e.groupIDs policy.ruleGroup) then
        acc ++ [e.groupIDs policy.ruleGroup]
      else acc) []

/-- The user-group name Resolve works with: the matched user's group, or
the configured default. -/
def userGroupNameOf (e : Engine) (clientIP : Addr) (clientMAC : Str) : String :=
  match e.userMatch clientIP clientMAC with
  | some u => u.userGroup
  | none => e.defaultUserGroupName

/-- The candidate rules of Resolve: the trie trace plus every matching
regex rule. -/
def allMatchesOf (e : Engine) (qName : Str) : List Rule :=
  SearchTrace e.trie qName ++
    e.regexRules.filterMap (fun rr =>
      if rr.rmatch qName then some rr.rrule else none)

/-- Model of Engine.Resolve. The wall-clock instant the Go code reads
inside getActiveGroupIDs is passed explicitly. -/
def Resolve (e : Engine) (qName : Str) (qType : Nat) (clientIP : Addr)
    (clientMAC : Str) (now : Instant) : ResolveResult :=
  let user := e.userMatch clientIP clientMAC
  let activeGroupIDs :=
    getActiveGroupIDs e (userGroupNameOf e clientIP clientMAC) now
  if activeGroupIDs = [] then ⟨false, "No active rules", none, user, []⟩
  else
    evalGroups user qType clientIP qName (allMatchesOf e qName) activeGroupIDs

/-! ### Specification-side definitions

These definitions follow the wording of the specification claims; the
theorems below compare them with the code model above.
-/

/-- The four-tier priority decision of one group, as the spec words it:
an applicable important whitelist yields not-blocked, else an
applicable important block yields blocked, else a whitelist yields
not-blocked, else a block yields blocked; none when the group has no
applicable candidate. -/
def tierDecision (cands : List Rule) : Option Bool :=
  if cands.any (fun r => r.isWhitelist && r.modifiers.important) then
    some false
  else if cands.any (fun r => !r.isWhitelist && r.modifiers.important) then
    some true
  else if cands.any (fun r => r.isWhitelist) then some false
  else if cands.any (fun r => !r.isWhitelist) then some true
  else none

/-- Prefix interpretation of a client token, for the spec-side token
match below. -/
def prefixHit (t : Str) (clientIP : Addr) : Bool :=
  match parsePrefix t with
  | some pfx => pfxContains pfx clientIP
  | none => false

/-- Spec-side client token match: the token equals the matched user's
name, or parses as an IP equal to the client IP, or parses as a CIDR
containing the client IP, or equals the client IP's textual form. -/
def specTokenMatch (t : Str) (user : Option User) (clientIP : Addr) : Bool :=
  userNameHit user t ||
  decide (parseAddr t = some clientIP) ||
  prefixHit t clientIP ||
  decide (t = addrToStr clientIP)

/-- Candidate classes for the slot characterization: an applicable
rule that is an important whitelist rule. -/
def isIW (appl : Rule → Bool) (r : Rule) : Bool :=
  appl r && r.isWhitelist && r.modifiers.important

/-- Applicable important block. -/
def isIB (appl : Rule → Bool) (r : Rule) : Bool :=
  appl r && !r.isWhitelist && r.modifiers.important

/-- Applicable plain whitelist. -/
def isW (appl : Rule → Bool) (r : Rule) : Bool :=
  appl r && r.isWhitelist && !r.modifiers.important

/-- Applicable plain block. -/
def isB (appl : Rule → Bool) (r : Rule) : Bool :=
  appl r && !r.isWhitelist && !r.modifiers.important

/-! ### Concrete fixtures for witnesses and counterexamples -/

/-- The single test policy: rule group ads, no schedule. -/
def testPolicy : Policy := { ruleGroup := "ads", schedule := "" }

/-- The single test user group. -/
def testUG : UserGroup := { name := "default", policies := [testPolicy] }

/-- A one-rule-group, one-user-group test configuration. -/
def testCfg : Config := { userGroups := [testUG] }

/-- A schedule matcher with no schedules. -/
def testSM : ScheduleMatcher := ⟨fun _ => none⟩

/-- A test engine around a given trie: no users, no schedules, one rule
group named ads with id 1. -/
def mkTestEngine (tr : TrieNode) : Engine :=
  { cfg := testCfg
    userMatch := fun _ _ => none
    scheduleMatcher := testSM
    trie := tr
    regexRules := []
    groupIDs := fun s => if s = "ads" then 1 else 0
    defaultUserGroupName := "default" }

/-- A concrete client address. -/
def testIP : Addr := ⟨10, 0, 0, 5⟩

/-- A concrete instant (Monday 10:30). -/
def testNow : Instant := ⟨1, 10, 30⟩

/-- The single Subdomain rule of claim C2, with a given pattern. -/
def c2rule (P : Str) : Rule :=
  { text := P, pattern := P, type := RuleType.distinguish,
    isWhitelist := false, modifiers := {}, ip := none, groupID := 1 }

/-- The engine of claim C2: exactly that rule in the index, group 1
active. -/
def c2engine (P : Str) : Engine :=
  mkTestEngine (trieInsert (c2rule P) emptyNode)

/-- First-inserted block rule for the C4 counterexample, carrying a
rewrite. -/
def c4ruleA : Rule :=
  { text := ("a").toList, pattern := ("ads.example").toList,
    type := RuleType.distinguish, isWhitelist := false,
    modifiers := { dnsRewrite := ("9.9.9.9").toList }, ip := none,
    groupID := 1 }

/-- Second-inserted block rule for the C4 counterexample, no rewrite. -/
def c4ruleB : Rule :=
  { text := ("b").toList, pattern := ("ads.example").toList,
    type := RuleType.distinguish, isWhitelist := false,
    modifiers := {}, ip := none, groupID := 1 }

/-- Engine with both C4 rules in enumeration order A then B. -/
def c4engine : Engine :=
  mkTestEngine (trieInsert c4ruleB (trieInsert c4ruleA emptyNode))

/-- An important block rule with a rewrite destination, for claim C5. -/
def c5rule : Rule :=
  { text := ("t").toList, pattern := ("track.example").toList,
    type := RuleType.distinguish, isWhitelist := false,
    modifiers := { dnsRewrite := ("1.2.3.4").toList, important := true },
    ip := none, groupID := 1 }

/-- Engine with the single C5 rule. -/
def c5engine : Engine := mkTestEngine (trieInsert c5rule emptyNode)

/-- An Exact rule for the C7 witness. -/
def c7rule : Rule :=
  { text := ("e").toList, pattern := ("tracker.example").toList,
    type := RuleType.exact, isWhitelist := false, modifiers := {},
    ip := none, groupID := 1 }

/-- The rule actually produced for the hosts-form line whose second
field is a-star-b-caret and which carries an explicit dnsrewrite
modifier: a Regex rule with an anchored pattern (caret stripped, star
converted), keeping the modifier's rewrite although the IP is
unspecified. -/
def c9parsedRule : Rule :=
  ⟨("0.0.0.0 a*b^$dnsrewrite=9.9.9.9").toList, ("^a.*b$").toList,
    RuleType.regex, false, { dnsRewrite := ("9.9.9.9").toList },
    some ⟨0, 0, 0, 0⟩, 0⟩

theorem splitCh_ne_nil (sep : Char) (s : Str) : splitCh sep s ≠ [] := by
  cases s with
  | nil => simp [splitCh]
  | cons c rest =>
    simp only [splitCh]
    cases h : splitCh sep rest with
    | nil => cases (splitCh_ne_nil sep rest) h
    | cons a t =>
      by_cases hc : c = sep <;> simp [hc]

theorem joinCh_splitCh (sep : Char) (s : Str) :
    joinCh sep (splitCh sep s) = s := by
  induction s with
  | nil => simp [splitCh, joinCh]
  | cons c rest ih =>
    simp only [splitCh]
    by_cases hc : c = sep
    · rw [if_pos hc]
      cases h : splitCh sep rest with
      | nil => cases (splitCh_ne_nil sep rest) h
      | cons a t =>
        rw [h] at ih
        simp [joinCh, ih, hc]
    · rw [if_neg hc]
      cases h : splitCh sep rest with
      | nil => cases (splitCh_ne_nil sep rest) h
      | cons a t =>
        rw [h] at ih
        cases t with
        | nil => simpa [joinCh] using ih
        | cons b t' =>
          simp only [joinCh] at ih ⊢
          simp [ih]

theorem splitCh_append (sep : Char) (a b : Str) :
    splitCh sep (a ++ sep :: b) = splitCh sep a ++ splitCh sep b := by
  induction a with
  | nil => simp [splitCh]
  | cons c rest ih =>
    show splitCh sep (c :: (rest ++ sep :: b)) = _
    simp only [splitCh, ih]
    by_cases hc : c = sep
    · simp [hc]
    · rw [if_neg hc, if_neg hc]
      cases h : splitCh sep rest with
      | nil => cases (splitCh_ne_nil sep rest) h
      | cons x t => simp [h]

theorem joinCh_append (sep : Char) (xs ys : List Str) (hx : xs ≠ [])
    (hy : ys ≠ []) :
    joinCh sep (xs ++ ys) = joinCh sep xs ++ sep :: joinCh sep ys := by
  induction xs with
  | nil => cases hx rfl
  | cons x xs' ih =>
    cases xs' with
    | nil =>
      cases ys with
      | nil => cases hy rfl
      | cons y ys' => simp [joinCh]
    | cons x' xs'' =>
      have h := ih (by simp)
      calc joinCh sep ((x :: x' :: xs'') ++ ys)
          = x ++ sep :: joinCh sep ((x' :: xs'') ++ ys) := rfl
        _ = x ++ sep :: (joinCh sep (x' :: xs'') ++ sep :: joinCh sep ys) := by
            rw [h]
        _ = joinCh sep (x :: x' :: xs'') ++ sep :: joinCh sep ys := by
            simp [joinCh]

/-- The label lists of a suffix domain: P labels form a suffix of q labels
exactly when q equals P or q ends with dot-P. -/
theorem splitCh_suffix_iff (sep : Char) (a b : Str) :
    splitCh sep a <:+ splitCh sep b ↔ b = a ∨ ∃ t, b = t ++ sep :: a := by
  constructor
  · rintro ⟨pre, hpre⟩
    cases pre with
    | nil =>
      left
      simp only [List.nil_append] at hpre
      have h := congrArg (joinCh sep) hpre
      rw [joinCh_splitCh, joinCh_splitCh] at h
      exact h.symm
    | cons p ps =>
      right
      refine ⟨joinCh sep (p :: ps), ?_⟩
      have hb : b = joinCh sep (splitCh sep b) := (joinCh_splitCh sep b).symm
      rw [← hpre, joinCh_append sep (p :: ps) (splitCh sep a) (by simp)
        (splitCh_ne_nil sep a), joinCh_splitCh] at hb
      exact hb
  · rintro (rfl | ⟨t, rfl⟩)
    · exact List.suffix_refl _
    · rw [splitCh_append]
      exact List.suffix_append _ _

theorem lastSplit_eq (c : Char) (s l r : Str) (h : lastSplit c s = some (l, r)) :
    s = l ++ c :: r := by
  induction s generalizing l r with
  | nil => simp [lastSplit] at h
  | cons x xs ih =>
    simp only [lastSplit] at h
    cases hx : lastSplit c xs with
    | some p =>
      rw [hx] at h
      obtain ⟨l', r'⟩ := p
      simp at h
      obtain ⟨h1, h2⟩ := h
      subst h2
      rw [← h1]
      simp [ih l' r' hx]
    | none =>
      rw [hx] at h
      by_cases hxc : x = c
      · simp [hxc] at h
        obtain ⟨h1, h2⟩ := h
        subst h1; subst h2; simp [hxc]
      · simp [hxc] at h

theorem parseOctet_digits (w : Str) (n : Nat) (h : parseOctet w = some n) :
    ∀ x ∈ w, x.isDigit = true := by
  intro x hx
  have hne : w ≠ [] := by rintro rfl; cases hx
  by_cases hall : w.all (fun c => c.isDigit) = true
  · exact List.all_eq_true.mp hall x hx
  · exfalso
    simp only [parseOctet, if_neg hne] at h
    rw [if_pos hall] at h
    cases h

theorem parseAddr_chars (s : Str) (a : Addr) (h : parseAddr s = some a) :
    ∀ c ∈ s, c.isDigit = true ∨ c = '.' := by
  intro c hc
  unfold parseAddr at h
  split at h
  case h_2 => cases h
  case h_1 p0 p1 p2 p3 hsplit =>
    split at h
    case h_2 => cases h
    case h_1 x y z w ho1 ho2 ho3 ho4 =>
      have hs : s = joinCh '.' [p0, p1, p2, p3] := by
        rw [← hsplit, joinCh_splitCh]
      rw [hs] at hc
      simp only [joinCh, List.mem_append, List.mem_cons] at hc
      rcases hc with h1 | (rfl | h1 | (rfl | h1 | (rfl | h1)))
      · exact Or.inl (parseOctet_digits p0 x ho1 c h1)
      · exact Or.inr rfl
      · exact Or.inl (parseOctet_digits p1 y ho2 c h1)
      · exact Or.inr rfl
      · exact Or.inl (parseOctet_digits p2 z ho3 c h1)
      · exact Or.inr rfl
      · exact Or.inl (parseOctet_digits p3 w ho4 c h1)

theorem parseAddr_parsePrefix_mutex (s : Str) (a : Addr)
    (h : parseAddr s = some a) : parsePrefix s = none := by
  unfold parsePrefix
  cases hl : lastSplit '/' s with
  | none => rfl
  | some p =>
    obtain ⟨l, r⟩ := p
    have hmem : '/' ∈ s := by
      rw [lastSplit_eq '/' s l r hl]
      simp
    rcases parseAddr_chars s a h '/' hmem with hd | hd <;> simp at hd

/-! ### Slot characterization and tier priority -/

theorem option_or_none (x : Option Rule) : x.or none = x := by
  cases x <;> rfl

theorem option_or_some_or (x : Option Rule) (a : Rule) (y : Option Rule) :
    (x.or (some a)).or y = x.or (some a) := by
  cases x <;> rfl

theorem getLast?_cons_or (a : Rule) (l : List Rule) :
    (a :: l).getLast? = l.getLast?.or (some a) := by
  cases l with
  | nil => rfl
  | cons b t =>
    rw [List.getLast?_cons_cons]
    cases h : (b :: t).getLast? with
    | none => exact absurd (List.getLast?_eq_none_iff.mp h) (by simp)
    | some x => rfl

theorem slots_foldl (appl : Rule → Bool) (ms : List Rule) (s : Slots) :
    ms.foldl (slotUpdate appl) s =
      ⟨((ms.filter (isIW appl)).getLast?).or s.iw,
       ((ms.filter (isIB appl)).getLast?).or s.ib,
       ((ms.filter (isW appl)).getLast?).or s.w,
       ((ms.filter (isB appl)).getLast?).or s.b⟩ := by
  induction ms generalizing s with
  | nil => simp [List.foldl_nil]
  | cons r ms ih =>
    rw [List.foldl_cons, ih]
    by_cases ha : appl r
    · by_cases hw : r.isWhitelist = true
      · by_cases hi : r.modifiers.important = true
        · simp [slotUpdate, ha, hw, hi, isIW, isIB, isW, isB,
            List.filter_cons, getLast?_cons_or, option_or_some_or]
        · simp [slotUpdate, ha, hw, hi, isIW, isIB, isW, isB,
            List.filter_cons, getLast?_cons_or, option_or_some_or]
      · by_cases hi : r.modifiers.important = true
        · simp [slotUpdate, ha, hw, hi, isIW, isIB, isW, isB,
            List.filter_cons, getLast?_cons_or, option_or_some_or]
        · simp [slotUpdate, ha, hw, hi, isIW, isIB, isW, isB,
            List.filter_cons, getLast?_cons_or, option_or_some_or]
    · simp [slotUpdate, ha, isIW, isIB, isW, isB, List.filter_cons]

theorem computeSlots_eq (appl : Rule → Bool) (ms : List Rule) :
    computeSlots appl ms =
      ⟨(ms.filter (isIW appl)).getLast?, (ms.filter (isIB appl)).getLast?,
       (ms.filter (isW appl)).getLast?, (ms.filter (isB appl)).getLast?⟩ := by
  rw [computeSlots, slots_foldl]
  simp [option_or_none]

theorem any_filter_ne_nil (p q : Rule → Bool) (ms : List Rule) :
    (ms.filter p).any q = true ↔
      ms.filter (fun r => p r && q r) ≠ [] := by
  rw [List.any_eq_true, Ne, List.filter_eq_nil_iff]
  push_neg
  constructor
  · rintro ⟨r, hr, hq⟩
    rw [List.mem_filter] at hr
    exact ⟨r, hr.1, by simp [hr.2, hq]⟩
  · rintro ⟨r, hr, hpq⟩
    simp only [Bool.and_eq_true] at hpq
    exact ⟨r, List.mem_filter.mpr ⟨hr, hpq.1⟩, hpq.2⟩

theorem tierDecision_eq_none (appl : Rule → Bool) (ms : List Rule)
    (h1 : ms.filter (isIW appl) = []) (h2 : ms.filter (isIB appl) = [])
    (h3 : ms.filter (isW appl) = []) (h4 : ms.filter (isB appl) = []) :
    tierDecision (ms.filter appl) = none := by
  have e1 : (ms.filter appl).any
      (fun r => r.isWhitelist && r.modifiers.important) = false := by
    rw [← Bool.not_eq_true, any_filter_ne_nil]
    simpa [isIW, Bool.and_assoc] using h1
  have e2 : (ms.filter appl).any
      (fun r => !r.isWhitelist && r.modifiers.important) = false := by
    rw [← Bool.not_eq_true, any_filter_ne_nil]
    simpa [isIB, Bool.and_assoc] using h2
  have e3 : (ms.filter appl).any (fun r => r.isWhitelist) = false := by
    rw [← Bool.not_eq_true, List.any_eq_true]
    push_neg
    intro r hr
    rw [List.mem_filter] at hr
    by_cases hi : r.modifiers.important = true
    · have := List.filter_eq_nil_iff.mp h1 r hr.1
      simp [isIW, hr.2, hi] at this
      simp [this]
    · have := List.filter_eq_nil_iff.mp h3 r hr.1
      simp [isW, hr.2, hi] at this
      simp [this]
  have e4 : (ms.filter appl).any (fun r => !r.isWhitelist) = false := by
    rw [← Bool.not_eq_true, List.any_eq_true]
    push_neg
    intro r hr
    rw [List.mem_filter] at hr
    by_cases hi : r.modifiers.important = true
    · have := List.filter_eq_nil_iff.mp h2 r hr.1
      simp [isIB, hr.2, hi] at this
      simp [this]
    · have := List.filter_eq_nil_iff.mp h4 r hr.1
      simp [isB, hr.2, hi] at this
      simp [this]
  rw [tierDecision, e1, e2, e3, e4]
  simp

theorem evalGroups_blocked (user : Option User) (qType : Nat)
    (clientIP : Addr) (qName : Str) (ms : List Rule) (gids : List Nat) :
    (evalGroups user qType clientIP qName ms gids).blocked =
      ((gids.findSome? (fun gid =>
          tierDecision (ms.filter
            (applicable user qType clientIP qName gid)))).getD false) := by
  induction gids with
  | nil => simp [evalGroups, List.findSome?_nil]
  | cons gid rest ih =>
    set appl := applicable user qType clientIP qName gid with happl
    rw [List.findSome?_cons]
    show (match computeSlots appl ms with
      | s =>
        match s.iw with
        | some r => (⟨false, "Important Whitelisted", some r, user, []⟩ :
            ResolveResult)
        | none =>
          match s.ib with
          | some r => ⟨true, "Important Blocked", some r, user, []⟩
          | none =>
            match s.w with
            | some r => ⟨false, "Whitelisted", some r, user, []⟩
            | none =>
              match s.b with
              | some r =>
                if r.modifiers.dnsRewrite ≠ [] then
                  ⟨true, "Rewrite", some r, user, r.modifiers.dnsRewrite⟩
                else ⟨true, "Blocked", some r, user, []⟩
              | none =>
                evalGroups user qType clientIP qName ms rest).blocked = _
    rw [computeSlots_eq]
    by_cases h1 : ms.filter (isIW appl) = []
    · by_cases h2 : ms.filter (isIB appl) = []
      · by_cases h3 : ms.filter (isW appl) = []
        · by_cases h4 : ms.filter (isB appl) = []
          · rw [h1, h2, h3, h4]
            simp only [List.getLast?_nil]
            rw [tierDecision_eq_none appl ms h1 h2 h3 h4]
            simpa using ih
          · rw [h1, h2, h3]
            simp only [List.getLast?_nil]
            cases hb : (ms.filter (isB appl)).getLast? with
            | none => exact absurd (List.getLast?_eq_none_iff.mp hb) h4
            | some r =>
              have ht : tierDecision (ms.filter appl) = some true := by
                rw [tierDecision]
                have e1 : (ms.filter appl).any
                    (fun r => r.isWhitelist && r.modifiers.important)
                      = false := by
                  rw [← Bool.not_eq_true, any_filter_ne_nil]
                  simpa [isIW, Bool.and_assoc] using h1
                have e4 : (ms.filter appl).any
                    (fun r => !r.isWhitelist) = true := by
                  rw [any_filter_ne_nil]
                  intro hcontra
                  apply h4
                  rw [List.filter_eq_nil_iff] at hcontra ⊢
                  intro r hr
                  by_cases hi : r.modifiers.important = true
                  · intro hB
                    simp only [isB, Bool.and_eq_true] at hB
                    simp [hi] at hB
                  · intro hB
                    simp only [isB, Bool.and_eq_true] at hB
                    exact absurd (by simp [hB.1.1, hB.1.2]) (hcontra r hr)
                rw [e1, e4]
                by_cases e2 : (ms.filter appl).any
                    (fun r => !r.isWhitelist && r.modifiers.important) = true
                · exfalso
                  rw [any_filter_ne_nil] at e2
                  apply e2
                  simpa [isIB, Bool.and_assoc] using h2
                · rw [Bool.not_eq_true] at e2
                  rw [e2]
                  by_cases e3 : (ms.filter appl).any
                      (fun r => r.isWhitelist) = true
                  · exfalso
                    rw [List.any_eq_true] at e3
                    obtain ⟨r', hr', hw'⟩ := e3
                    rw [List.mem_filter] at hr'
                    by_cases hi : r'.modifiers.important = true
                    · have := List.filter_eq_nil_iff.mp h1 r' hr'.1
                      simp [isIW, hr'.2, hw', hi] at this
                    · have := List.filter_eq_nil_iff.mp h3 r' hr'.1
                      simp [isW, hr'.2, hw', hi] at this
                  · rw [Bool.not_eq_true] at e3
                    rw [e3]
                    simp
              rw [ht]
              by_cases hrw : r.modifiers.dnsRewrite ≠ [] <;> simp [hrw]
        · cases hw : (ms.filter (isW appl)).getLast? with
          | none => exact absurd (List.getLast?_eq_none_iff.mp hw) h3
          | some r =>
            rw [h1, h2]
            simp only [List.getLast?_nil]
            have ht : tierDecision (ms.filter appl) = some false := by
              rw [tierDecision]
              have e1 : (ms.filter appl).any
                  (fun r => r.isWhitelist && r.modifiers.important)
                    = false := by
                rw [← Bool.not_eq_true, any_filter_ne_nil]
                simpa [isIW, Bool.and_assoc] using h1
              have e2 : (ms.filter appl).any
                  (fun r => !r.isWhitelist && r.modifiers.important)
                    = false := by
                rw [← Bool.not_eq_true, any_filter_ne_nil]
                simpa [isIB, Bool.and_assoc] using h2
              have e3 : (ms.filter appl).any (fun r => r.isWhitelist)
                  = true := by
                rw [any_filter_ne_nil]
                intro hcontra
                apply h3
                rw [List.filter_eq_nil_iff] at hcontra ⊢
                intro r' hr' hW
                simp only [isW, Bool.and_eq_true] at hW
                exact absurd (by simp [hW.1.1, hW.1.2]) (hcontra r' hr')
              rw [e1, e2, e3]
              simp
            rw [ht]
            simp
      · cases hb : (ms.filter (isIB appl)).getLast? with
        | none => exact absurd (List.getLast?_eq_none_iff.mp hb) h2
        | some r =>
          rw [h1]
          simp only [List.getLast?_nil]
          have ht : tierDecision (ms.filter appl) = some true := by
            rw [tierDecision]
            have e1 : (ms.filter appl).any
                (fun r => r.isWhitelist && r.modifiers.important)
                  = false := by
              rw [← Bool.not_eq_true, any_filter_ne_nil]
              simpa [isIW, Bool.and_assoc] using h1
            have e2 : (ms.filter appl).any
                (fun r => !r.isWhitelist && r.modifiers.important)
                  = true := by
              rw [any_filter_ne_nil]
              intro hcontra
              apply h2
              simpa [isIB, Bool.and_assoc] using hcontra
            rw [e1, e2]
            simp
          rw [ht]
          simp
    · cases hiwl : (ms.filter (isIW appl)).getLast? with
      | none => exact absurd (List.getLast?_eq_none_iff.mp hiwl) h1
      | some r =>
        have ht : tierDecision (ms.filter appl) = some false := by
          rw [tierDecision]
          have e1 : (ms.filter appl).any
              (fun r => r.isWhitelist && r.modifiers.important) = true := by
            rw [any_filter_ne_nil]
            intro hcontra
            apply h1
            simpa [isIW, Bool.and_assoc] using hcontra
          rw [e1]
          simp
        rw [ht]
        simp

/-- C1: Resolve decides by the four-tier priority within the first
active group whose applicable candidates are non-empty: important
whitelist beats important block beats whitelist beats block, and a group
with no applicable candidate is skipped; with no decisive group the
query is not blocked. -/
theorem resolve_tier_priority (e : Engine) (qName : Str) (qType : Nat)
    (clientIP : Addr) (clientMAC : Str) (now : Instant) :
    (Resolve e qName qType clientIP clientMAC now).blocked =
      (((getActiveGroupIDs e (userGroupNameOf e clientIP clientMAC)
          now).findSome? (fun gid =>
            tierDecision ((allMatchesOf e qName).filter
              (applicable (e.userMatch clientIP clientMAC) qType clientIP
                qName gid)))).getD false) := by
  rw [Resolve]
  by_cases h : getActiveGroupIDs e (userGroupNameOf e clientIP clientMAC)
      now = []
  · rw [h]
    simp [List.findSome?_nil]
  · rw [if_neg h]
    exact evalGroups_blocked (e.userMatch clientIP clientMAC) qType clientIP
      qName (allMatchesOf e qName) _

/-! ### Slot tie-breaking (C4) and the important-block rewrite (C5) -/

/-- C4 (counterexample): with two applicable block rules in the same
group, the first applicable one is c4ruleA, yet the partition's block
slot and Resolve's decisive rule are c4ruleB — the later rule, not the
first. -/
theorem slots_first_wins_counterexample :
    (((allMatchesOf c4engine (("ads.example").toList)).filter
        (applicable none 1 testIP (("ads.example").toList) 1)).head?
      = some c4ruleA) ∧
    ((computeSlots (applicable none 1 testIP (("ads.example").toList) 1)
        (allMatchesOf c4engine (("ads.example").toList))).b = some c4ruleB) ∧
    c4ruleA ≠ c4ruleB ∧
    ((Resolve c4engine (("ads.example").toList) 1 testIP [] testNow).rule
      = some c4ruleB) := by
  decide

/-- C4 (amended): each priority slot of the per-group partition keeps
the LAST applicable rule of its class in candidate-enumeration order —
a rule encountered later overwrites an earlier one in the same slot. -/
theorem slots_keep_last (appl : Rule → Bool) (ms : List Rule) :
    computeSlots appl ms =
      ⟨(ms.filter (isIW appl)).getLast?, (ms.filter (isIB appl)).getLast?,
       (ms.filter (isW appl)).getLast?, (ms.filter (isB appl)).getLast?⟩ :=
  computeSlots_eq appl ms

/-- C5 (counterexample): the decisive rule is an important block rule
whose dns_rewrite is 1.2.3.4, yet Resolve returns blocked with an empty
rewrite destination. -/
theorem important_block_rewrite_counterexample :
    (Resolve c5engine (("track.example").toList) 1 testIP [] testNow =
      ⟨true, "Important Blocked", some c5rule, none, []⟩) ∧
    c5rule.modifiers.dnsRewrite = ("1.2.3.4").toList ∧
    (Resolve c5engine (("track.example").toList) 1 testIP [] testNow).dnsRewrite
      ≠ c5rule.modifiers.dnsRewrite := by
  decide

/-- C5 (amended): when the first decisive group decides by the slot
holding important block rules, the group loop returns blocked with reason
Important Blocked and an EMPTY rewrite destination, regardless of the
rule's dns_rewrite modifier; only the plain block slot honours the
rewrite. -/
theorem important_block_no_rewrite (user : Option User) (qType : Nat)
    (clientIP : Addr) (qName : Str) (ms : List Rule) (gid : Nat)
    (rest : List Nat) (r : Rule)
    (hiw : (computeSlots (applicable user qType clientIP qName gid) ms).iw
      = none)
    (hib : (computeSlots (applicable user qType clientIP qName gid) ms).ib
      = some r) :
    evalGroups user qType clientIP qName ms (gid :: rest) =
      ⟨true, "Important Blocked", some r, user, []⟩ := by
  show (match (computeSlots (applicable user qType clientIP qName gid)
      ms).iw with
    | some r => (⟨false, "Important Whitelisted", some r, user, []⟩ :
        ResolveResult)
    | none =>
      match (computeSlots (applicable user qType clientIP qName gid)
          ms).ib with
      | some r => ⟨true, "Important Blocked", some r, user, []⟩
      | none =>
        match (computeSlots (applicable user qType clientIP qName gid)
            ms).w with
        | some r => ⟨false, "Whitelisted", some r, user, []⟩
        | none =>
          match (computeSlots (applicable user qType clientIP qName gid)
              ms).b with
          | some r =>
            if r.modifiers.dnsRewrite ≠ [] then
              ⟨true, "Rewrite", some r, user, r.modifiers.dnsRewrite⟩
            else ⟨true, "Blocked", some r, user, []⟩
          | none => evalGroups user qType clientIP qName ms rest) = _
  rw [hiw, hib]

/-- C5 witness: the amended theorem at the concrete C5 inputs. -/
theorem important_block_no_rewrite_witness :
    evalGroups none 1 testIP (("track.example").toList) [c5rule] [1] =
      ⟨true, "Important Blocked", some c5rule, none, []⟩ :=
  important_block_no_rewrite none 1 testIP (("track.example").toList)
    [c5rule] 1 [] c5rule (by decide) (by decide)

/-- C7: an Exact candidate rule is dropped by Resolve's filter whenever
the trailing-dot-stripped query name differs from its pattern; in
particular it never matches a strict subdomain of its pattern. -/
theorem exact_rule_strictness (user : Option User) (qType : Nat)
    (clientIP : Addr) (qName : Str) (gid : Nat) (r : Rule)
    (hty : r.type = RuleType.exact) :
    (trimDot qName ≠ r.pattern →
      applicable user qType clientIP qName gid r = false) ∧
    (('.' :: r.pattern) <:+ trimDot qName →
      applicable user qType clientIP qName gid r = false) := by
  constructor
  · intro hne
    unfold applicable
    by_cases h1 : r.groupID ≠ gid
    · rw [if_pos h1]
    · rw [if_neg h1, if_pos ⟨hty, fun h => hne h.symm⟩]
  · intro hsub
    have hlen : (trimDot qName).length ≥ r.pattern.length + 1 := by
      have := hsub.length_le
      simpa using this
    have hne : trimDot qName ≠ r.pattern := by
      intro h
      rw [h] at hlen
      omega
    unfold applicable
    by_cases h1 : r.groupID ≠ gid
    · rw [if_pos h1]
    · rw [if_neg h1, if_pos ⟨hty, fun h => hne h.symm⟩]

/-- C7 witness: the theorem at a concrete Exact rule and a strict
subdomain query. -/
theorem exact_rule_strictness_witness :
    applicable none 1 testIP (("sub.tracker.example").toList) 1 c7rule
      = false :=
  (exact_rule_strictness none 1 testIP (("sub.tracker.example").toList) 1
    c7rule (by decide)).2 (by decide)

/-! ### Trie coverage (C2) -/

theorem searchRev_empty_children (qs : List Str) (rs : List Rule) :
    searchRev qs (TrieNode.node [] rs) = [] := by
  cases qs with
  | nil => rfl
  | cons q qs' => rfl

theorem searchRev_insert_single (ps : List Str) :
    ∀ (r : Rule), ps ≠ [] →
      ∀ qs, searchRev qs (insertRev ps r emptyNode) =
        if ps <+: qs then [r] else [] := by
  induction ps with
  | nil => intro r hne; cases hne rfl
  | cons p ps' ih =>
    intro r _ qs
    cases qs with
    | nil =>
      rw [if_neg (by simp)]
      rfl
    | cons q qs' =>
      have hins : insertRev (p :: ps') r emptyNode =
          TrieNode.node [(p, insertRev ps' r emptyNode)] [] := rfl
      rw [hins]
      show (match lookupChild [(p, insertRev ps' r emptyNode)] q with
        | none => []
        | some child => child.nrules ++ searchRev qs' child) = _
      by_cases hpq : p = q
      · rw [show lookupChild [(p, insertRev ps' r emptyNode)] q =
            some (insertRev ps' r emptyNode) by simp [lookupChild, hpq]]
        cases ps' with
        | nil =>
          rw [if_pos (by simp [List.cons_prefix_cons, hpq])]
          show (TrieNode.node [] [r]).nrules ++
            searchRev qs' (TrieNode.node [] [r]) = [r]
          rw [searchRev_empty_children]
          rfl
        | cons x xs =>
          have hnr : (insertRev (x :: xs) r emptyNode).nrules = [] := rfl
          show (insertRev (x :: xs) r emptyNode).nrules ++
              searchRev qs' (insertRev (x :: xs) r emptyNode) =
            if p :: x :: xs <+: q :: qs' then [r] else []
          rw [hnr, List.nil_append]
          rw [ih r (by simp) qs']
          by_cases hpre : (x :: xs) <+: qs'
          · rw [if_pos hpre, if_pos (by simp [List.cons_prefix_cons, hpq, hpre])]
          · rw [if_neg hpre, if_neg (by simp [List.cons_prefix_cons, hpq, hpre])]
      · rw [show lookupChild [(p, insertRev ps' r emptyNode)] q = none by
          simp [lookupChild, hpq]]
        rw [if_neg (by simp [List.cons_prefix_cons, hpq])]

theorem SearchTrace_single (P q : Str) (r : Rule) (hP : r.pattern = P) :
    SearchTrace (trieInsert r emptyNode) q =
      if splitCh '.' P <:+ splitCh '.' (trimDot q) then [r] else [] := by
  rw [SearchTrace, trieInsert, hP]
  rw [searchRev_insert_single (splitCh '.' P).reverse r
    (by simp [splitCh_ne_nil]) (splitCh '.' (trimDot q)).reverse]
  simp only [ List.reverse_prefix]

/-- C2: for a single wildcard-free Subdomain rule with pattern P in an
active group with no modifiers, Resolve blocks exactly the names equal
to P or ending in dot-P after trailing-dot stripping, and on every other
name the trie trace returns no candidate at all. -/
theorem subdomain_rule_coverage (P q : Str) (qType : Nat) (clientIP : Addr)
    (clientMAC : Str) (now : Instant) (hstar : '*' ∉ P) :
    ((Resolve (c2engine P) q qType clientIP clientMAC now).blocked = true ↔
      (trimDot q = P ∨ ('.' :: P) <:+ trimDot q)) ∧
    (¬ (trimDot q = P ∨ ('.' :: P) <:+ trimDot q) →
      SearchTrace (c2engine P).trie q = []) := by
  have hsearch : SearchTrace (c2engine P).trie q =
      if splitCh '.' P <:+ splitCh '.' (trimDot q) then [c2rule P] else [] :=
    SearchTrace_single P q (c2rule P) rfl
  have hiff : (splitCh '.' P <:+ splitCh '.' (trimDot q)) ↔
      (trimDot q = P ∨ ('.' :: P) <:+ trimDot q) := by
    rw [splitCh_suffix_iff]
    constructor
    · rintro (h | ⟨t, ht⟩)
      · exact Or.inl h
      · exact Or.inr ⟨t, ht.symm⟩
    · rintro (h | ⟨t, ht⟩)
      · exact Or.inl h
      · exact Or.inr ⟨t, ht.symm⟩
  constructor
  · rw [show Resolve (c2engine P) q qType clientIP clientMAC now =
        evalGroups none qType clientIP q (allMatchesOf (c2engine P) q) [1]
      from rfl]
    rw [show allMatchesOf (c2engine P) q = SearchTrace (c2engine P).trie q
      from by simp [allMatchesOf, c2engine, mkTestEngine]]
    rw [hsearch]
    by_cases hC : splitCh '.' P <:+ splitCh '.' (trimDot q)
    · rw [if_pos hC]
      have hb : (evalGroups none qType clientIP q [c2rule P] [1]).blocked
          = true := rfl
      simp only [hb, true_iff]
      exact hiff.mp hC
    · rw [if_neg hC]
      have hb : (evalGroups none qType clientIP q ([] : List Rule)
          [1]).blocked = false := rfl
      simp only [hb]
      constructor
      · intro h; cases h
      · intro h
        exact absurd (hiff.mpr h) hC
  · intro h
    rw [hsearch, if_neg (fun hc => h (hiff.mp hc))]

/-- C2 witness: the theorem at a concrete pattern and subdomain query. -/
theorem subdomain_rule_coverage_witness :
    (Resolve (c2engine (("example.com").toList))
      (("ads.example.com").toList) 1 testIP [] testNow).blocked = true :=
  (subdomain_rule_coverage (("example.com").toList)
      (("ads.example.com").toList) 1 testIP [] testNow (by decide)).1.mpr
    (Or.inr ⟨("ads").toList, by decide⟩)

/-! ### Schedule suppression (C6) -/

theorem contains_iff (l : List Nat) (a : Nat) : l.contains a = true ↔ a ∈ l := by
  simp [List.contains]

theorem isActive_iff (sm : ScheduleMatcher) (name : String) (t : Instant) :
    IsActive sm name t = true ↔
      (name ≠ "" ∧ ∃ sch, sm.schedules name = some sch ∧
        ∃ r ∈ sch.weekMap t.weekday,
          r.start ≤ t.hour * 60 + t.minute ∧
          t.hour * 60 + t.minute ≤ r.stop) := by
  unfold IsActive
  by_cases hn : name = ""
  · simp [hn]
  · rw [if_neg hn]
    cases hs : sm.schedules name with
    | none => simp [hn, hs]
    | some sch =>
      simp only [hs]
      by_cases hr : sch.weekMap t.weekday = []
      · simp [hr, hn, hs]
      · rw [if_neg hr]
        simp only [List.any_eq_true, decide_eq_true_eq, ne_eq, hn,
          not_false_iff, true_and, Option.some.injEq]
        constructor
        · rintro ⟨r, hrm, h1, h2⟩
          exact ⟨sch, rfl, r, hrm, h1, h2⟩
        · rintro ⟨sch', hsch, r, hrm, h1, h2⟩
          cases hsch
          exact ⟨r, hrm, h1, h2⟩

theorem mem_activeFold (e : Engine) (now : Instant) (ps : List Policy) :
    ∀ (acc : List Nat) (gid : Nat),
      gid ∈ ps.foldl (fun acc policy =>
          if IsActive e.scheduleMatcher policy.schedule now then acc
          else if e.groupIDs policy.ruleGroup ≠ 0 ∧
              ¬ acc.contains (e.groupIDs policy.ruleGroup) then
            acc ++ [e.groupIDs policy.ruleGroup]
          else acc)
        acc ↔
      gid ∈ acc ∨ (gid ≠ 0 ∧ ∃ p ∈ ps, e.groupIDs p.ruleGroup = gid ∧
        IsActive e.scheduleMatcher p.schedule now = false) := by
  induction ps with
  | nil => simp
  | cons p ps' ih =>
    intro acc gid
    rw [List.foldl_cons]
    by_cases hact : IsActive e.scheduleMatcher p.schedule now = true
    · rw [if_pos hact, ih]
      simp only [List.mem_cons]
      constructor
      · rintro (h | ⟨h0, p', hp', hrg, hia⟩)
        · exact Or.inl h
        · exact Or.inr ⟨h0, p', Or.inr hp', hrg, hia⟩
      · rintro (h | ⟨h0, p', hp' | hp', hrg, hia⟩)
        · exact Or.inl h
        · subst hp'
          rw [hact] at hia
          cases hia
        · exact Or.inr ⟨h0, p', hp', hrg, hia⟩
    · rw [if_neg hact]
      rw [Bool.not_eq_true] at hact
      by_cases hg : e.groupIDs p.ruleGroup ≠ 0 ∧
          ¬ acc.contains (e.groupIDs p.ruleGroup)
      · rw [if_pos hg, ih]
        simp only [List.mem_append, List.mem_cons, List.not_mem_nil,
          or_false]
        constructor
        · rintro ((h | h) | ⟨h0, p', hp', hrg, hia⟩)
          · exact Or.inl h
          · subst h
            exact Or.inr ⟨hg.1, p, Or.inl rfl, rfl, hact⟩
          · exact Or.inr ⟨h0, p', Or.inr hp', hrg, hia⟩
        · rintro (h | ⟨h0, p', hp' | hp', hrg, hia⟩)
          · exact Or.inl (Or.inl h)
          · subst hp'
            exact Or.inl (Or.inr hrg.symm)
          · exact Or.inr ⟨h0, p', hp', hrg, hia⟩
      · rw [if_neg hg, ih]
        simp only [List.mem_cons]
        constructor
        · rintro (h | ⟨h0, p', hp', hrg, hia⟩)
          · exact Or.inl h
          · exact Or.inr ⟨h0, p', Or.inr hp', hrg, hia⟩
        · rintro (h | ⟨h0, p', hp' | hp', hrg, hia⟩)
          · exact Or.inl h
          · subst hp'
            push_neg at hg
            left
            rw [← contains_iff, ← hrg]
            exact hg (hrg ▸ h0)
          · exact Or.inr ⟨h0, p', hp', hrg, hia⟩

/-- C6: IsActive holds exactly when the instant's minute-of-day falls in
one of the named schedule's ranges for the current weekday, with both
endpoints inclusive (so empty names, unknown names and range-free days
are never active), and a policy's rule-group id appears in the active
list exactly when the user group has a policy for it whose schedule is
not active and whose id is non-zero. -/
theorem schedule_policy_suppression (e : Engine) (ugName : String)
    (now : Instant) (gid : Nat) (sm : ScheduleMatcher) (name : String)
    (t : Instant) :
    (IsActive sm name t = true ↔
      (name ≠ "" ∧ ∃ sch, sm.schedules name = some sch ∧
        ∃ r ∈ sch.weekMap t.weekday,
          r.start ≤ t.hour * 60 + t.minute ∧
          t.hour * 60 + t.minute ≤ r.stop)) ∧
    (gid ∈ getActiveGroupIDs e ugName now ↔
      gid ≠ 0 ∧ ∃ ug,
        e.cfg.userGroups.find? (fun u => u.name = ugName) = some ug ∧
        ∃ p ∈ ug.policies, e.groupIDs p.ruleGroup = gid ∧
          IsActive e.scheduleMatcher p.schedule now = false) := by
  refine ⟨isActive_iff sm name t, ?_⟩
  unfold getActiveGroupIDs
  cases hf : e.cfg.userGroups.find? (fun u => u.name = ugName) with
  | none => simp
  | some ug =>
    rw [mem_activeFold]
    simp only [List.not_mem_nil, false_or, Option.some.injEq]
    constructor
    · rintro ⟨h0, p', hp', hrg, hia⟩
      exact ⟨h0, ug, rfl, p', hp', hrg, hia⟩
    · rintro ⟨h0, ug', hug, p', hp', hrg, hia⟩
      cases hug
      exact ⟨h0, p', hp', hrg, hia⟩

/-! ### Client modifier semantics (C8) -/

theorem clientTokenMatch_eq_spec (p : Str) (user : Option User)
    (clientIP : Addr)
    (hrt : parseAddr (addrToStr clientIP) = some clientIP) :
    clientTokenMatch p user clientIP =
      specTokenMatch (stripTilde p) user clientIP := by
  unfold clientTokenMatch specTokenMatch prefixHit
  by_cases hu : userNameHit user (stripTilde p) = true
  · simp [hu]
  · rw [Bool.not_eq_true] at hu
    cases hA : parseAddr (stripTilde p) with
    | some a =>
      have hP : parsePrefix (stripTilde p) = none :=
        parseAddr_parsePrefix_mutex _ a hA
      by_cases he : a = clientIP
      · subst he
        simp [hu, hA, hP]
      · have ht : stripTilde p ≠ addrToStr clientIP := by
          intro h
          rw [h, hrt] at hA
          injection hA with hA2
          exact he hA2.symm
        simp [hu, hA, hP, he, ht]
    | none =>
      cases hP : parsePrefix (stripTilde p) with
      | some pfx =>
        have ht : stripTilde p ≠ addrToStr clientIP := by
          intro h
          rw [h, hrt] at hA
          cases hA
        simp [hu, hA, hP, ht]
      | none =>
        simp [hu, hA, hP]

/-- C8: for a rule's client-modifier values, with tokens flattened on
pipes and the mode read off a tilde on the first token: in exclusion
mode the rule applies exactly when no token (tilde-stripped, trimmed)
matches the client, and in inclusion mode exactly when at least one
does; a token matches when it equals the matched user's name, parses as
an IP equal to the client IP, parses as a CIDR containing it, or equals
its textual form. -/
theorem client_modifier_semantics (vals : List Str) (user : Option User)
    (clientIP : Addr) (t0 : Str) (ts : List Str)
    (hrt : parseAddr (addrToStr clientIP) = some clientIP)
    (hflat : vals.flatMap (splitCh '|') = t0 :: ts) :
    (((trimSpace t0).head? = some '~') →
      (clientGuard vals user clientIP = true ↔
        ∀ p ∈ t0 :: ts,
          specTokenMatch (stripTilde (trimSpace p)) user clientIP
            = false)) ∧
    (((trimSpace t0).head? ≠ some '~') →
      (clientGuard vals user clientIP = true ↔
        ∃ p ∈ t0 :: ts,
          specTokenMatch (stripTilde (trimSpace p)) user clientIP
            = true)) := by
  have hv : vals ≠ [] := by
    intro h
    subst h
    simp [List.flatMap] at hflat
  constructor
  · intro hex
    simp only [clientGuard, if_neg hv, hflat,
      clientTokenMatch_eq_spec _ user clientIP hrt, hex, ite_true,
      decide_eq_true_eq, List.any_eq_true, Bool.not_eq_true]
    push_neg
    constructor
    · intro h p hp
      rw [← Bool.not_eq_true]
      exact h p hp
    · intro h p hp
      rw [h p hp]
      simp
  · intro hex
    simp only [clientGuard, if_neg hv, hflat,
      clientTokenMatch_eq_spec _ user clientIP hrt, hex, ite_true,
      ite_false, decide_eq_true_eq, List.any_eq_true, Bool.not_eq_true]

/-- C8 witness: a CIDR token in inclusion mode applied to a client
inside the prefix. -/
theorem client_modifier_semantics_witness :
    clientGuard [("10.0.0.0/24").toList] none testIP = true :=
  ((client_modifier_semantics [("10.0.0.0/24").toList] none testIP
      (("10.0.0.0/24").toList) [] (by decide) (by decide)).2
    (by decide)).mpr ⟨("10.0.0.0/24").toList, by decide, by decide⟩

/-! ### Hosts-file parsing (C9) and parser errors (C10) -/

theorem splitPred_ne_nil (p : Char → Bool) (s : Str) : splitPred p s ≠ [] := by
  cases s with
  | nil => simp [splitPred]
  | cons c rest =>
    simp only [splitPred]
    cases h : splitPred p rest with
    | nil => cases (splitPred_ne_nil p rest) h
    | cons a t =>
      by_cases hc : p c <;> simp [hc]

theorem fieldsOf_head (body : Str) (f0 : Str) (rest : List Str)
    (h : fieldsOf body = f0 :: rest) :
    body ≠ [] ∧ ∀ c, body.head? = some c → c.isWhitespace = false →
      f0.head? = some c := by
  constructor
  · intro hb
    subst hb
    simp [fieldsOf, splitPred] at h
  · intro c hc hw
    cases body with
    | nil => cases hc
    | cons b bs =>
      injection hc with hc
      subst hc
      unfold fieldsOf splitPred at h
      rw [if_neg (by simp [hw])] at h
      cases hs : splitPred (fun c => c.isWhitespace) bs with
      | nil => cases splitPred_ne_nil _ bs hs
      | cons a t =>
        rw [hs, List.filter_cons, if_pos (by simp)] at h
        injection h with h1 h2
        rw [← h1]
        rfl

theorem parseAddr_head_digit (s : Str) (a : Addr) (h : parseAddr s = some a) :
    ∃ c, s.head? = some c ∧ c.isDigit = true := by
  cases s with
  | nil => simp [parseAddr, splitCh] at h
  | cons c cs =>
    refine ⟨c, rfl, ?_⟩
    by_cases hd : c = '.'
    · exfalso
      subst hd
      unfold parseAddr at h
      rw [show splitCh '.' ('.' :: cs) = [] :: splitCh '.' cs from by
        simp [splitCh]] at h
      split at h
      next p0 p1 p2 p3 heq =>
        injection heq with e0 e1
        split at h
        next x y z w ho1 ho2 ho3 ho4 =>
          rw [← e0] at ho1
          rw [show parseOctet ([] : Str) = none from rfl] at ho1
          cases ho1
        next => cases h
      next => cases h
    · rcases parseAddr_chars _ a h c (by simp) with hd2 | hd2
      · exact hd2
      · exact absurd hd2 hd

theorem pipePrefix_head (body : Str)
    (h : (("||").toList).isPrefixOf body = true) : body.head? = some '|' := by
  cases body with
  | nil => simp [List.isPrefixOf] at h
  | cons c cs =>
    have : ("||").toList = '|' :: '|' :: [] := rfl
    rw [this] at h
    simp only [List.isPrefixOf, Bool.and_eq_true, beq_iff_eq] at h
    rw [← h.1]
    rfl

theorem classify_hosts (body : Str) (mods : Modifiers) (isWl : Bool)
    (origText : Str) (f0 f1 : Str) (fs : List Str) (ip : Addr)
    (h4 : fieldsOf body = f0 :: f1 :: fs) (h5 : parseAddr f0 = some ip) :
    classify body mods isWl origText =
      (if '*' ∈ trimCaret f1 then
        ⟨origText,
          '^' :: replaceStarEsc (quoteMeta (trimCaret f1))
            ++ [Char.ofNat 36],
          RuleType.regex, isWl,
          (if ¬ isLoopback ip ∧ ¬ isUnspecified ip then
            { mods with dnsRewrite := addrToStr ip }
          else mods), some ip, 0⟩
      else
        ⟨origText, trimCaret f1, RuleType.exact, isWl,
          (if ¬ isLoopback ip ∧ ¬ isUnspecified ip then
            { mods with dnsRewrite := addrToStr ip }
          else mods), some ip, 0⟩) := by
  obtain ⟨hbne, hhead⟩ := fieldsOf_head body f0 (f1 :: fs) h4
  have hheadc : ∀ c, body.head? = some c → c ≠ '/' ∧ c ≠ '|' := by
    intro c hc
    by_cases hw : c.isWhitespace = true
    · constructor <;> rintro rfl <;> simp at hw
    · have hf0 := hhead c hc (by simpa using hw)
      obtain ⟨d, hd, hdig⟩ := parseAddr_head_digit f0 ip h5
      rw [hf0] at hd
      injection hd with hd
      subst hd
      constructor <;> rintro rfl <;> simp at hdig
  have hcne : ∃ c, body.head? = some c := by
    cases body with
    | nil => cases hbne rfl
    | cons b bs => exact ⟨b, rfl⟩
  obtain ⟨c, hc⟩ := hcne
  have hnd := hheadc c hc
  have hnotslash : ¬ (body.head? = some '/' ∧ body.getLast? = some '/') := by
    rintro ⟨hp, -⟩
    rw [hc] at hp
    injection hp with hp
    exact hnd.1 hp
  have hnotpipe : ¬ (("||").toList).isPrefixOf body = true := by
    intro hp
    have := pipePrefix_head body hp
    rw [hc] at this
    injection this with this
    exact hnd.2 this
  have hnotpipe2 : ¬ ((['|', '|'] : Str) <+: body) := by
    intro hp
    exact hnotpipe (by simpa [ List.isPrefixOf_iff_prefix] using hp)
  unfold classify
  by_cases hstar : '*' ∈ trimCaret f1
  · simp [hnotslash, hnotpipe2, h4, h5, hstar]
  · simp [hnotslash, hnotpipe2, h4, h5, hstar]

/-- C9 (amended): a non-comment line whose residual body splits into at
least two fields with a parseable-IP first field is parsed as a rule
with its IP set and pattern equal to the second field with one trailing
caret stripped; the kind is Exact when that stripped pattern holds no
wildcard star, and otherwise the rule is converted to an anchored Regex;
dns_rewrite is set to the IP's textual form when the IP is neither
loopback nor unspecified, and otherwise keeps the value of any explicit
dnsrewrite modifier. -/
theorem hosts_rule_parse (line body : Str) (mods : Modifiers) (f0 f1 : Str)
    (fs : List Str) (ip : Addr)
    (h1 : ¬ (trimSpace line = [] ∨ (trimSpace line).head? = some '!' ∨
        (trimSpace line).head? = some '#'))
    (h3 : splitDollar (peelWhitelist (trimSpace line)).2 =
      Except.ok (body, mods))
    (h4 : fieldsOf body = f0 :: f1 :: fs) (h5 : parseAddr f0 = some ip) :
    ParseRule line = Except.ok (some
      (if '*' ∈ trimCaret f1 then
        ⟨trimSpace line,
          '^' :: replaceStarEsc (quoteMeta (trimCaret f1))
            ++ [Char.ofNat 36],
          RuleType.regex, (peelWhitelist (trimSpace line)).1,
          (if ¬ isLoopback ip ∧ ¬ isUnspecified ip then
            { mods with dnsRewrite := addrToStr ip }
          else mods), some ip, 0⟩
      else
        ⟨trimSpace line, trimCaret f1, RuleType.exact,
          (peelWhitelist (trimSpace line)).1,
          (if ¬ isLoopback ip ∧ ¬ isUnspecified ip then
            { mods with dnsRewrite := addrToStr ip }
          else mods), some ip, 0⟩)) := by
  unfold ParseRule
  rw [if_neg h1]
  simp only [h3]
  rw [classify_hosts body mods (peelWhitelist (trimSpace line)).1
    (trimSpace line) f0 f1 fs ip h4 h5]

/-- C9 witness: a hosts-file line with a public IP parses to an Exact
rule rewriting to that IP. -/
theorem hosts_rule_parse_witness :
    ParseRule (("1.2.3.4 redir.example").toList) = Except.ok (some
      ⟨("1.2.3.4 redir.example").toList, ("redir.example").toList,
        RuleType.exact, false, { dnsRewrite := ("1.2.3.4").toList },
        some ⟨1, 2, 3, 4⟩, 0⟩) := by
  have h := hosts_rule_parse (("1.2.3.4 redir.example").toList)
    (("1.2.3.4 redir.example").toList) {} (("1.2.3.4").toList)
    (("redir.example").toList) [] ⟨1, 2, 3, 4⟩ (by decide) rfl (by decide)
    (by decide)
  rw [h]
  rfl

/-- C9 (counterexample): one hosts-form line meeting the claim's
hypotheses (two fields, parseable-IP first field) on which every part of
the claim fails: the second field is a-star-b-caret and the line carries
an explicit dnsrewrite modifier, so the parsed rule is Regex rather than
Exact, its pattern is the anchored conversion rather than the second
field, and dns_rewrite is set although the IP is unspecified. -/
theorem hosts_rule_parse_counterexample :
    ParseRule (("0.0.0.0 a*b^$dnsrewrite=9.9.9.9").toList)
      = Except.ok (some c9parsedRule) ∧
    c9parsedRule.type = RuleType.regex ∧
    c9parsedRule.type ≠ RuleType.exact ∧
    c9parsedRule.pattern ≠ ("a*b^").toList ∧
    isUnspecified ⟨0, 0, 0, 0⟩ = true ∧
    c9parsedRule.ip = some ⟨0, 0, 0, 0⟩ ∧
    c9parsedRule.modifiers.dnsRewrite ≠ [] ∧
    fieldsOf (("0.0.0.0 a*b^").toList) =
      [("0.0.0.0").toList, ("a*b^").toList] ∧
    parseAddr (("0.0.0.0").toList) = some ⟨0, 0, 0, 0⟩ :=
  ⟨rfl, rfl, by decide, by decide, rfl, rfl, by decide, by decide,
    by decide⟩

theorem parseRule_never_error (line : Str) (err : String) :
    ParseRule line ≠ Except.error err := by
  unfold ParseRule
  by_cases h : trimSpace line = [] ∨ (trimSpace line).head? = some '!' ∨
      (trimSpace line).head? = some '#'
  · rw [if_pos h]
    simp
  · rw [if_neg h]
    cases hsd : splitDollar (peelWhitelist (trimSpace line)).2 with
    | ok bm =>
      simp only [hsd]
      simp
    | error e =>
      exfalso
      unfold splitDollar at hsd
      cases hls : lastSplit '$' (peelWhitelist (trimSpace line)).2 with
      | none =>
        rw [hls] at hsd
        cases hsd
      | some p =>
        rw [hls] at hsd
        obtain ⟨body, seg⟩ := p
        simp [parseModifiersE] at hsd

/-- C10: ParseRule yields no rule and no error on blank lines and on
lines opening with an exclamation mark or a hash; and it returns an
error precisely when parsing the modifier segment after the last dollar
sign fails (which, as parseModifiers accepts every segment, never
happens). -/
theorem parse_rule_comment_and_modifier_errors (line : Str) :
    ((trimSpace line = [] ∨ (trimSpace line).head? = some '!' ∨
        (trimSpace line).head? = some '#') →
      ParseRule line = Except.ok none) ∧
    ((∃ err, ParseRule line = Except.error err) ↔
      (∃ body seg err,
        lastSplit '$' (peelWhitelist (trimSpace line)).2 = some (body, seg) ∧
        parseModifiersE seg = Except.error err)) := by
  constructor
  · intro h
    unfold ParseRule
    rw [if_pos h]
  · constructor
    · rintro ⟨err, herr⟩
      exact absurd herr (parseRule_never_error line err)
    · rintro ⟨body, seg, err, hls, hpm⟩
      simp [parseModifiersE] at hpm

/-- C10 witness: a comment line yields no rule and no error. -/
theorem parse_rule_comment_witness :
    ParseRule (("! comment").toList) = Except.ok none :=
  (parse_rule_comment_and_modifier_errors (("! comment").toList)).1
    (by decide)

end Adblocker
